import Mathlib

/-!
Verification of the AppFlowy folder `AppController`
(`frontend/rust-lib/flowy-folder/src/services/app/controller.rs`).

The controller mediates app lifecycle operations between a local
persistence store, a remote cloud service, a trash subsystem and a
notification bus.  The embedding below models the persistence store as an
ordered list of `AppRevision` rows, the trash as a list of ids, and every
controller operation as a pure function from the folder state to a result,
a new folder state, and the list of notifications it published.  The
external gateway contracts (persistence transaction primitives, trash id
reads, the cloud service) are not part of the source slice; they are
modelled from the specification, as marked on each definition.
-/

deriving instance DecidableEq for Except

/-- Error kinds, from the spec's §7 error model (`FlowyError` in the source). -/
inductive FlowyError where
  | notFound
  | unauthorized
  | network
  | internal
deriving DecidableEq, Repr

/-- A persisted app row (`AppRevision` in `folder_model`): id, owning
workspace, and the updatable payload fields. -/
structure AppRevision where
  id : String
  workspace_id : String
  name : String
  desc : String
deriving DecidableEq, Repr

/-- The projected view object (`AppPB`); `app.into()` in the source. -/
structure AppPB where
  id : String
  workspace_id : String
  name : String
  desc : String
deriving DecidableEq, Repr

/-- Projection `AppRevision → AppPB` (the `Into` impl used by `read_app`,
`update_app` and `notify_apps_changed`). -/
def AppRevision.toPB (a : AppRevision) : AppPB :=
  ⟨a.id, a.workspace_id, a.name, a.desc⟩

/-- `UpdateAppParams`: id plus a sparse set of updated fields. -/
structure UpdateAppParams where
  app_id : String
  name : Option String
  desc : Option String
deriving DecidableEq, Repr

/-- `AppChangeset`: row id plus the fields to modify. -/
structure AppChangeset where
  id : String
  name : Option String
  desc : Option String
deriving DecidableEq, Repr

/-- `AppChangeset::new(params)`: the changeset is the params' id together
with the params' sparse fields. -/
def AppChangeset.new (params : UpdateAppParams) : AppChangeset :=
  ⟨params.app_id, params.name, params.desc⟩

/-- The folder-local state the controller's transactions range over: the
ordered list of persisted app rows and the trash id set read through
`TrashController::read_trash_ids`. -/
structure FolderState where
  apps : List AppRevision
  trash : List String
deriving DecidableEq, Repr

/-- Notifications published on the notification bus
(`send_notification(key, ty).payload(p).send()`). -/
inductive Notification where
  | updatedApp (app_id : String) (payload : AppPB)
  | updatedWorkspaceApps (workspace_id : String) (payload : List AppPB)
deriving DecidableEq, Repr

namespace Tx

/-- Modelled from the spec: transaction primitive `read_app(id) → AppRevision`,
"errors if absent" (§6); absence surfaces as `NotFound` (§7). -/
def read_app (apps : List AppRevision) (app_id : String) :
    Except FlowyError AppRevision :=
  match apps.find? (fun a => a.id == app_id) with
  | some a => .ok a
  | none => .error .notFound

/-- Modelled from the spec: transaction primitive `create_app(AppRevision)`
inserts the row; the new row takes the last position of its workspace's
ordered sequence (§6, §3). -/
def create_app (apps : List AppRevision) (app : AppRevision) : List AppRevision :=
  apps ++ [app]

/-- Modelled from the spec: transaction primitive `delete_app(id)` removes
the row (§6). -/
def delete_app (apps : List AppRevision) (app_id : String) : List AppRevision :=
  apps.filter (fun a => !(a.id == app_id))

/-- Modelled from the spec: transaction primitive `update_app(AppChangeset)`
applies the changeset's present fields to the identified row; "Only present
fields are applied" (§3). -/
def update_app (apps : List AppRevision) (c : AppChangeset) : List AppRevision :=
  apps.map (fun a =>
    if a.id == c.id then
      { a with name := c.name.getD a.name, desc := c.desc.getD a.desc }
    else a)

/-- Modelled from the spec: transaction primitive
`read_workspace_apps(workspace_id)` returns the workspace's rows in their
persisted order (§6). -/
def read_workspace_apps (apps : List AppRevision) (workspace_id : String) :
    List AppRevision :=
  apps.filter (fun a => a.workspace_id == workspace_id)

/-- Moving one element of a list from position `f` to position `t`;
`none` when either position is out of range. -/
def moveElem (l : List AppRevision) (f t : Nat) : Option (List AppRevision) :=
  match l[f]? with
  | none => none
  | some x => if t < l.length then some ((l.eraseIdx f).insertIdx t x) else none

/-- Replace the subsequence of rows belonging to workspace `w` by the list
`repl`, keeping every other row in place. -/
def replaceWs (w : String) : List AppRevision → List AppRevision → List AppRevision
  | _, [] => []
  | repl, a :: rest =>
    if a.workspace_id == w then
      match repl with
      | [] => a :: rest
      | b :: bs => b :: replaceWs w bs rest
    else a :: replaceWs w repl rest

/-- Modelled from the spec: transaction primitive `move_app(id, from, to)`.
"Positions form an ordered sequence, and `move_app(from, to)` is a
permutation" of the app's workspace sequence (§3); "If `from`/`to` is out
of range, persistence signals an error" (§4). -/
def move_app (apps : List AppRevision) (app_id : String) (f t : Nat) :
    Except FlowyError (List AppRevision) :=
  match apps.find? (fun a => a.id == app_id) with
  | none => .error .notFound
  | some app =>
    match moveElem (read_workspace_apps apps app.workspace_id) f t with
    | none => .error .internal
    | some moved => .ok (replaceWs app.workspace_id moved apps)

end Tx

/-- `TrashController::read_trash_ids(&transaction)`: the current trash id
set, read within the caller's transaction (modelled from the spec, §6). -/
def read_trash_ids (st : FolderState) : List String :=
  st.trash

namespace AppController

/-- `read_workspace_apps` (controller.rs:246): read the workspace's apps,
read the trash id set in the same transaction, and retain the apps whose id
is not trashed, in persisted order. -/
def read_workspace_apps (workspace_id : String) (st : FolderState) :
    List AppRevision :=
  let app_revs := Tx.read_workspace_apps st.apps workspace_id
  let trash_ids := read_trash_ids st
  app_revs.filter (fun app => !(trash_ids.contains app.id))

/-- `notify_apps_changed` (controller.rs:230): compute the trash-filtered
workspace app list from the open transaction, project each row, and publish
it as a `DidUpdateWorkspaceApps` notification keyed by the workspace id. -/
def notify_apps_changed (workspace_id : String) (st : FolderState) :
    Notification :=
  .updatedWorkspaceApps workspace_id
    ((read_workspace_apps workspace_id st).map AppRevision.toPB)

/-- The outcome of a controller operation: the returned value, the folder
state after the transaction committed or rolled back, and the
notifications published while it ran. -/
structure Out (α : Type) where
  result : Except FlowyError α
  state : FolderState
  sent : List Notification
deriving DecidableEq, Repr

/-- `AppController::read_app` (controller.rs:71): in one transaction, read
the row (surfacing its error if absent), read the trash id set, and return
`none` when the row's id is trashed, the row otherwise. -/
def read_app (st : FolderState) (app_id : String) : Out (Option AppRevision) :=
  match Tx.read_app st.apps app_id with
  | .error e => ⟨.error e, st, []⟩
  | .ok app =>
    let trash_ids := read_trash_ids st
    if trash_ids.contains app.id then ⟨.ok none, st, []⟩
    else ⟨.ok (some app), st, []⟩

/-- `AppController::create_app_on_local` (controller.rs:55): in one
transaction, insert the row and publish the workspace notification computed
from the same transaction; return the projected view. -/
def create_app_on_local (st : FolderState) (app : AppRevision) : Out AppPB :=
  let st1 : FolderState := { st with apps := Tx.create_app st.apps app }
  ⟨.ok app.toPB, st1, [notify_apps_changed app.workspace_id st1]⟩

/-- The cloud side of the system, for `create_app_from_params`: the apps
the cloud service has recorded (modelled from the spec, §6). -/
structure SystemState where
  folder : FolderState
  remote_apps : List AppRevision
deriving DecidableEq, Repr

/-- The outcome of `create_app_from_params` over the whole system. -/
structure CreateOut where
  result : Except FlowyError AppPB
  sys : SystemState
  sent : List Notification
deriving DecidableEq, Repr

/-- `AppController::create_app_on_server` (controller.rs:143): fetch the
user token, then ask the cloud service to create the app.  The collaborator
behaviours are inputs: `token` is what `user.token()` returns and `cloud`
what `cloud_service.create_app` would return; on success the cloud has
recorded the returned revision (modelled from the spec, §6). -/
def create_app_on_server (sys : SystemState) (token : Except FlowyError String)
    (cloud : Except FlowyError AppRevision) :
    Except FlowyError AppRevision × SystemState :=
  match token with
  | .error e => (.error e, sys)
  | .ok _ =>
    match cloud with
    | .error e => (.error e, sys)
    | .ok app => (.ok app, { sys with remote_apps := sys.remote_apps ++ [app] })

/-- `AppController::create_app_from_params` (controller.rs:47): create the
app on the server first, propagating any failure, then create it locally. -/
def create_app_from_params (sys : SystemState) (token : Except FlowyError String)
    (cloud : Except FlowyError AppRevision) : CreateOut :=
  match create_app_on_server sys token cloud with
  | (.error e, sys1) => ⟨.error e, sys1, []⟩
  | (.ok app, sys1) =>
    let local_out := create_app_on_local sys1.folder app
    match local_out.result with
    | .error e => ⟨.error e, { sys1 with folder := local_out.state }, local_out.sent⟩
    | .ok pb => ⟨.ok pb, { sys1 with folder := local_out.state }, local_out.sent⟩

/-- Events ordered by `update_app`'s control flow, used to state its
temporal guarantees. -/
inductive UpdateEvent where
  | localCommit
  | notificationSent
  | remoteCallStarted
deriving DecidableEq, Repr

/-- The outcome of `update_app`: result, state, notifications, the ordered
trace of its observable steps, and the errors its detached remote task
logged. -/
structure UpdateOut where
  result : Except FlowyError Unit
  state : FolderState
  sent : List Notification
  trace : List UpdateEvent
  logs : List FlowyError
deriving DecidableEq, Repr

/-- `AppController::update_app` (controller.rs:86) together with
`update_app_on_server` (controller.rs:150): in one transaction apply the
changeset and re-read the row (rolling back on error); after commit publish
`DidUpdateApp` with the re-read row; then fetch the token (propagating its
failure) and spawn the detached remote update, whose own failure is only
logged.  `token` is what `user.token()` returns and `remote` what the
spawned `cloud_service.update_app` call would return. -/
def update_app (st : FolderState) (params : UpdateAppParams)
    (token : Except FlowyError String) (remote : Except FlowyError Unit) :
    UpdateOut :=
  let changeset := AppChangeset.new params
  let app_id := changeset.id
  let apps1 := Tx.update_app st.apps changeset
  match Tx.read_app apps1 app_id with
  | .error e => ⟨.error e, st, [], [], []⟩
  | .ok app =>
    let st1 : FolderState := { st with apps := apps1 }
    let sent := [Notification.updatedApp app_id app.toPB]
    match token with
    | .error e => ⟨.error e, st1, sent, [.localCommit, .notificationSent], []⟩
    | .ok _ =>
      let logs := match remote with
        | .ok _ => []
        | .error e => [e]
      ⟨.ok (), st1, sent,
        [.localCommit, .notificationSent, .remoteCallStarted], logs⟩

/-- `AppController::move_app` (controller.rs:106): in one transaction move
the row, re-read it to recover its workspace, and publish the workspace
notification from the same transaction; any failure rolls the transaction
back. -/
def move_app (st : FolderState) (app_id : String) (f t : Nat) : Out Unit :=
  match Tx.move_app st.apps app_id f t with
  | .error e => ⟨.error e, st, []⟩
  | .ok apps1 =>
    match Tx.read_app apps1 app_id with
    | .error e => ⟨.error e, st, []⟩
    | .ok app =>
      let st1 : FolderState := { st with apps := apps1 }
      ⟨.ok (), st1, [notify_apps_changed app.workspace_id st1]⟩

/-- The read loop of `AppController::read_local_apps` (controller.rs:123):
read each id in order inside one transaction, failing the whole call on the
first absent id; no trash filtering. -/
def readLocalLoop (apps : List AppRevision) :
    List String → Except FlowyError (List AppRevision)
  | [] => .ok []
  | id :: rest =>
    match Tx.read_app apps id with
    | .error e => .error e
    | .ok app =>
      match readLocalLoop apps rest with
      | .error e => .error e
      | .ok tail => .ok (app :: tail)

/-- `AppController::read_local_apps` (controller.rs:123). -/
def read_local_apps (st : FolderState) (ids : List String) :
    Out (List AppRevision) :=
  match readLocalLoop st.apps ids with
  | .error e => ⟨.error e, st, []⟩
  | .ok apps => ⟨.ok apps, st, []⟩

end AppController

/-- A trash event filtered to the `TrashApp` kind (`TrashEvent` in the
source): the identifiers' app ids, with the one-shot ack sink left
implicit (the handler's ack sends are returned explicitly below). -/
inductive TrashEvent where
  | newTrash (items : List String)
  | putback (items : List String)
  | delete (items : List String)
deriving DecidableEq, Repr

/-- The outcome of handling one trash event: the folder state after the
transaction, the notifications published while it ran, and the values sent
on the event's ack sink, in order. -/
structure TrashOut where
  state : FolderState
  sent : List Notification
  acks : List (Except FlowyError Unit)
deriving DecidableEq, Repr

/-- The `NewTrash`/`Putback` loop of `handle_trash_event`
(controller.rs:195): for each identifier in order, read its row (failing
the transaction on the first absent id) and immediately publish the
workspace notification for the row's workspace.  Notifications already
published stay published when a later read fails. -/
def trashReadLoop (st : FolderState) :
    List String → Except FlowyError Unit × List Notification
  | [] => (.ok (), [])
  | id :: rest =>
    match Tx.read_app st.apps id with
    | .error e => (.error e, [])
    | .ok app =>
      let n := AppController.notify_apps_changed app.workspace_id st
      ((trashReadLoop st rest).1, n :: (trashReadLoop st rest).2)

/-- `HashSet::insert` on the list modelling the `notify_ids` set of the
`Delete` branch: appended only when not already present. -/
def insertUnique (l : List String) (x : String) : List String :=
  if l.contains x then l else l ++ [x]

/-- The `Delete` loop of `handle_trash_event` (controller.rs:208): for each
identifier in order, read the row (capturing its workspace id into the
`notify_ids` set) and delete it; the first failure aborts the loop. -/
def deleteLoop (apps : List AppRevision) (notify_ids : List String) :
    List String → Except FlowyError (List AppRevision × List String)
  | [] => .ok (apps, notify_ids)
  | id :: rest =>
    match Tx.read_app apps id with
    | .error e => .error e
    | .ok app =>
      deleteLoop (Tx.delete_app apps id) (insertUnique notify_ids app.workspace_id) rest

/-- `handle_trash_event` (controller.rs:186): `NewTrash`/`Putback` run the
read-and-notify loop in one transaction and send its result on the ack
sink; `Delete` reads and deletes every identified row in one transaction,
then publishes one workspace notification per distinct captured workspace
id, and sends the transaction result on the ack sink.  A failed transaction
rolls the folder state back. -/
def handle_trash_event (st : FolderState) (event : TrashEvent) : TrashOut :=
  match event with
  | .newTrash items | .putback items =>
    ⟨st, (trashReadLoop st items).2, [(trashReadLoop st items).1]⟩
  | .delete items =>
    match deleteLoop st.apps [] items with
    | .error e => ⟨st, [], [.error e]⟩
    | .ok (apps1, notify_ids) =>
      let st1 : FolderState := { st with apps := apps1 }
      ⟨st1, notify_ids.map (fun w => AppController.notify_apps_changed w st1), [.ok ()]⟩

/-- The workspace id of the row `read_app` finds for an identifier
(defaulting to `""` when absent); the workspace a trash-event loop
captures for that identifier. -/
def foundWorkspace (apps : List AppRevision) (app_id : String) : String :=
  match apps.find? (fun a => a.id == app_id) with
  | some a => a.workspace_id
  | none => ""

/-- A user-initiated or trash-originated operation of the controller, for
properties quantifying over every operation. -/
inductive Operation where
  | createLocal (app : AppRevision)
  | createFromParams (token : Except FlowyError String) (cloud : Except FlowyError AppRevision)
  | update (params : UpdateAppParams) (token : Except FlowyError String)
      (remote : Except FlowyError Unit)
  | move (app_id : String) (f t : Nat)
  | readApp (app_id : String)
  | readLocalApps (ids : List String)
  | trashEvent (event : TrashEvent)
deriving Repr

/-- Run one operation against a folder state, returning the folder state it
leaves behind and the notifications it published. -/
def runOperation (st : FolderState) (op : Operation) :
    FolderState × List Notification :=
  match op with
  | .createLocal app =>
    let out := AppController.create_app_on_local st app
    (out.state, out.sent)
  | .createFromParams token cloud =>
    let out := AppController.create_app_from_params ⟨st, []⟩ token cloud
    (out.sys.folder, out.sent)
  | .update params token remote =>
    let out := AppController.update_app st params token remote
    (out.state, out.sent)
  | .move app_id f t =>
    let out := AppController.move_app st app_id f t
    (out.state, out.sent)
  | .readApp app_id =>
    let out := AppController.read_app st app_id
    (out.state, out.sent)
  | .readLocalApps ids =>
    let out := AppController.read_local_apps st ids
    (out.state, out.sent)
  | .trashEvent event =>
    let out := handle_trash_event st event
    (out.state, out.sent)

/-- Every notification produced by the `NewTrash`/`Putback` loop is a
workspace notification computed on the (unmutated) transaction state. -/
theorem trashReadLoop_sent_shape (st : FolderState) (items : List String) :
    ∀ n ∈ (trashReadLoop st items).2, ∃ w, n = AppController.notify_apps_changed w st := by
  induction items with
  | nil => simp [trashReadLoop]
  | cons id rest ih =>
    simp only [trashReadLoop]
    cases h : Tx.read_app st.apps id with
    | error e => simp
    | ok app =>
      intro n hn
      rcases List.mem_cons.1 hn with h1 | h2
      · exact ⟨app.workspace_id, h1⟩
      · exact ih n h2

/-- `read_app` publishes no notification. -/
theorem read_app_sent (st : FolderState) (app_id : String) :
    (AppController.read_app st app_id).sent = [] := by
  unfold AppController.read_app
  cases h : Tx.read_app st.apps app_id with
  | error e => rfl
  | ok app =>
    simp only []
    split <;> rfl

/-- `read_local_apps` publishes no notification. -/
theorem read_local_apps_sent (st : FolderState) (ids : List String) :
    (AppController.read_local_apps st ids).sent = [] := by
  unfold AppController.read_local_apps
  cases h : AppController.readLocalLoop st.apps ids <;> rfl

/-- C1: `read_app(AppIdPB{value=id})` fails with `NotFound` iff no app row
with that id exists in persistence, and that is its only failure mode;
it returns `none` iff the row exists and its id is in the trash id set read
within the same transaction; and it returns `some row` iff the row exists
and is not trashed. -/
theorem read_app_absent_trash_spec (st : FolderState) (app_id : String) :
    ((AppController.read_app st app_id).result = .error FlowyError.notFound
        ↔ ∀ a ∈ st.apps, a.id ≠ app_id) ∧
    (∀ e, (AppController.read_app st app_id).result = .error e → e = .notFound) ∧
    ((AppController.read_app st app_id).result = .ok none
        ↔ (∃ a ∈ st.apps, a.id = app_id) ∧ app_id ∈ st.trash) ∧
    (∀ a, (AppController.read_app st app_id).result = .ok (some a)
        → a ∈ st.apps ∧ a.id = app_id ∧ app_id ∉ st.trash) ∧
    (((∃ a ∈ st.apps, a.id = app_id) ∧ app_id ∉ st.trash)
        → ∃ a, (AppController.read_app st app_id).result = .ok (some a)) := by
  cases hfind : st.apps.find? (fun a => a.id == app_id) with
  | none =>
    have hres : (AppController.read_app st app_id).result = .error FlowyError.notFound := by
      simp only [AppController.read_app, Tx.read_app, hfind]
    have hall : ∀ a ∈ st.apps, a.id ≠ app_id := by
      intro a ha
      have h := List.find?_eq_none.1 hfind a ha
      simpa using h
    rw [hres]
    refine ⟨by simpa using hall, by simp, ?_, by simp, ?_⟩
    · constructor
      · intro h; cases h
      · rintro ⟨⟨a, ha, hid⟩, -⟩; exact absurd hid (hall a ha)
    · rintro ⟨⟨a, ha, hid⟩, -⟩; exact absurd hid (hall a ha)
  | some a =>
    have hmem : a ∈ st.apps := List.mem_of_find?_eq_some hfind
    have hid : a.id = app_id := by simpa using List.find?_some hfind
    cases htr : st.trash.contains a.id with
    | true =>
      have hres : (AppController.read_app st app_id).result = .ok none := by
        simp only [AppController.read_app, Tx.read_app, read_trash_ids, hfind, htr, if_true]
      have htr' : app_id ∈ st.trash := List.elem_iff.1 (hid ▸ htr)
      rw [hres]
      refine ⟨?_, by simp, ?_, by simp, ?_⟩
      · constructor
        · intro h; cases h
        · intro h; exact absurd hid (h a hmem)
      · simp only [true_iff]
        exact ⟨⟨a, hmem, hid⟩, htr'⟩
      · rintro ⟨-, hnt⟩; exact absurd htr' hnt
    | false =>
      have hres : (AppController.read_app st app_id).result = .ok (some a) := by
        simp only [AppController.read_app, Tx.read_app, read_trash_ids, hfind, htr,
          Bool.false_eq_true, if_false]
      have htr' : app_id ∉ st.trash := by
        intro hm
        have hc : st.trash.contains a.id = true := List.elem_iff.2 (hid ▸ hm)
        rw [htr] at hc
        cases hc
      rw [hres]
      refine ⟨?_, by simp, ?_, ?_, ?_⟩
      · constructor
        · intro h; cases h
        · intro h; exact absurd hid (h a hmem)
      · constructor
        · intro h; cases h
        · rintro ⟨-, hm⟩; exact absurd hm htr'
      · intro b hb
        have hba : b = a := by
          injection hb with h1
          injection h1 with h2
          exact h2.symm
        subst hba
        exact ⟨hmem, hid, htr'⟩
      · exact fun _ => ⟨a, rfl⟩

/-- C1 witness: a trashed existing row reads back as `none`. -/
theorem read_app_absent_trash_spec_witness :
    (AppController.read_app ⟨[⟨"a1", "W1", "A", ""⟩], ["a1"]⟩ "a1").result = .ok none :=
  (read_app_absent_trash_spec ⟨[⟨"a1", "W1", "A", ""⟩], ["a1"]⟩ "a1").2.2.1.2
    ⟨⟨⟨"a1", "W1", "A", ""⟩, by simp, rfl⟩, by simp⟩

/-- C2: every `DidUpdateWorkspaceApps` notification published by an
operation for a workspace `w` carries exactly the trash-filtered, ordered
app list of `w` as it stands in the folder state the operation leaves
behind (the state read inside the same transaction as the mutation the
notification describes). -/
theorem workspace_notification_matches_final_state (st : FolderState) (op : Operation)
    (w : String) (payload : List AppPB)
    (h : Notification.updatedWorkspaceApps w payload ∈ (runOperation st op).2) :
    payload = (AppController.read_workspace_apps w (runOperation st op).1).map AppRevision.toPB := by
  cases op with
  | createLocal app =>
    simp only [runOperation, AppController.create_app_on_local,
      AppController.notify_apps_changed, List.mem_singleton] at h ⊢
    injection h with hw hp
    subst hw
    exact hp
  | createFromParams token cloud =>
    simp only [runOperation, AppController.create_app_from_params,
      AppController.create_app_on_server] at h ⊢
    cases token with
    | error e => simp at h
    | ok tok =>
      cases cloud with
      | error e => simp at h
      | ok app =>
        simp only [AppController.create_app_on_local,
          AppController.notify_apps_changed, List.mem_singleton] at h ⊢
        injection h with hw hp
        subst hw
        exact hp
  | update params token remote =>
    simp only [runOperation, AppController.update_app] at h ⊢
    cases hr : Tx.read_app (Tx.update_app st.apps (AppChangeset.new params)) (AppChangeset.new params).id with
    | error e => simp [hr] at h
    | ok app =>
      cases token with
      | error e => simp [hr] at h
      | ok tok => simp [hr] at h
  | move app_id f t =>
    simp only [runOperation, AppController.move_app] at h ⊢
    cases hm : Tx.move_app st.apps app_id f t with
    | error e => simp [hm] at h
    | ok apps1 =>
      cases hr : Tx.read_app apps1 app_id with
      | error e => simp [hm, hr] at h
      | ok app =>
        simp only [hm, hr, AppController.notify_apps_changed, List.mem_singleton] at h ⊢
        injection h with hw hp
        subst hw
        exact hp
  | readApp app_id =>
    simp only [runOperation, read_app_sent] at h
    simp at h
  | readLocalApps ids =>
    simp only [runOperation, read_local_apps_sent] at h
    simp at h
  | trashEvent event =>
    cases event with
    | newTrash items =>
      simp only [runOperation, handle_trash_event] at h ⊢
      obtain ⟨w', hw'⟩ := trashReadLoop_sent_shape st items _ h
      rw [AppController.notify_apps_changed] at hw'
      injection hw' with hw hp
      subst hw
      exact hp
    | putback items =>
      simp only [runOperation, handle_trash_event] at h ⊢
      obtain ⟨w', hw'⟩ := trashReadLoop_sent_shape st items _ h
      rw [AppController.notify_apps_changed] at hw'
      injection hw' with hw hp
      subst hw
      exact hp
    | delete items =>
      simp only [runOperation, handle_trash_event] at h ⊢
      cases hd : deleteLoop st.apps [] items with
      | error e => simp [hd] at h
      | ok p =>
        simp only [hd, List.mem_map] at h ⊢
        obtain ⟨w', hw', heq⟩ := h
        rw [AppController.notify_apps_changed] at heq
        injection heq with hw hp
        subst hw
        exact hp.symm

/-- C2 witness: creating an app locally in an empty store publishes the
post-commit one-element workspace list. -/
theorem workspace_notification_matches_final_state_witness :
    ([(⟨"a1", "W1", "A", ""⟩ : AppRevision).toPB] : List AppPB) =
      (AppController.read_workspace_apps "W1"
        (runOperation ⟨[], []⟩ (.createLocal ⟨"a1", "W1", "A", ""⟩)).1).map AppRevision.toPB :=
  workspace_notification_matches_final_state ⟨[], []⟩ (.createLocal ⟨"a1", "W1", "A", ""⟩)
    "W1" [(⟨"a1", "W1", "A", ""⟩ : AppRevision).toPB] (by decide)

/-- C3: `create_app_from_params` calls the cloud service before touching
local persistence — a failed token fetch or remote create propagates the
error and leaves the system (local persistence included) exactly as it was
— and on success the server-assigned revision exists both remotely and
locally. -/
theorem create_app_cloud_first (sys : AppController.SystemState)
    (token : Except FlowyError String) (cloud : Except FlowyError AppRevision) :
    (∀ e, token = .error e →
      (AppController.create_app_from_params sys token cloud).result = .error e ∧
      (AppController.create_app_from_params sys token cloud).sys = sys) ∧
    (∀ tok e, token = .ok tok → cloud = .error e →
      (AppController.create_app_from_params sys token cloud).result = .error e ∧
      (AppController.create_app_from_params sys token cloud).sys = sys) ∧
    (∀ tok app, token = .ok tok → cloud = .ok app →
      (AppController.create_app_from_params sys token cloud).result = .ok app.toPB ∧
      app ∈ (AppController.create_app_from_params sys token cloud).sys.folder.apps ∧
      app ∈ (AppController.create_app_from_params sys token cloud).sys.remote_apps) := by
  refine ⟨?_, ?_, ?_⟩
  · rintro e rfl
    simp [AppController.create_app_from_params, AppController.create_app_on_server]
  · rintro tok e rfl rfl
    simp [AppController.create_app_from_params, AppController.create_app_on_server]
  · rintro tok app rfl rfl
    simp [AppController.create_app_from_params, AppController.create_app_on_server,
      AppController.create_app_on_local, Tx.create_app]

/-- C3 witness: a successful token and remote create leave the app present
both locally and remotely. -/
theorem create_app_cloud_first_witness :
    (AppController.create_app_from_params ⟨⟨[], []⟩, []⟩ (.ok "t")
        (.ok ⟨"a1", "W1", "A", ""⟩)).result = .ok (⟨"a1", "W1", "A", ""⟩ : AppRevision).toPB ∧
    (⟨"a1", "W1", "A", ""⟩ : AppRevision) ∈
      (AppController.create_app_from_params ⟨⟨[], []⟩, []⟩ (.ok "t")
        (.ok ⟨"a1", "W1", "A", ""⟩)).sys.folder.apps ∧
    (⟨"a1", "W1", "A", ""⟩ : AppRevision) ∈
      (AppController.create_app_from_params ⟨⟨[], []⟩, []⟩ (.ok "t")
        (.ok ⟨"a1", "W1", "A", ""⟩)).sys.remote_apps :=
  (create_app_cloud_first ⟨⟨[], []⟩, []⟩ (.ok "t") (.ok ⟨"a1", "W1", "A", ""⟩)).2.2
    "t" ⟨"a1", "W1", "A", ""⟩ rfl rfl

/-- The modelled transaction `read_app` has `NotFound` as its only
failure mode. -/
theorem tx_read_app_error_notFound (apps : List AppRevision) (app_id : String) (e : FlowyError)
    (h : Tx.read_app apps app_id = .error e) : e = .notFound := by
  unfold Tx.read_app at h
  cases hf : apps.find? (fun a => a.id == app_id) with
  | none => rw [hf] at h; injection h with h1; exact h1.symm
  | some a => rw [hf] at h; cases h

/-- A read loop over identifiers containing an absent id fails with
`NotFound`. -/
theorem trashReadLoop_missing_fails (st : FolderState) (items : List String)
    (h : ∃ id ∈ items, ∀ a ∈ st.apps, a.id ≠ id) :
    (trashReadLoop st items).1 = .error .notFound := by
  induction items with
  | nil => simp at h
  | cons id rest ih =>
    obtain ⟨mid, hmem, hmiss⟩ := h
    simp only [trashReadLoop]
    cases hr : Tx.read_app st.apps id with
    | error e => rw [tx_read_app_error_notFound st.apps id e hr]
    | ok app =>
      rcases List.mem_cons.1 hmem with heq | hrest
      · subst heq
        unfold Tx.read_app at hr
        cases hf : st.apps.find? (fun a => a.id == mid) with
        | none => rw [hf] at hr; cases hr
        | some b =>
          have hb : b ∈ st.apps := List.mem_of_find?_eq_some hf
          have hid : b.id = mid := by simpa using List.find?_some hf
          exact absurd hid (hmiss b hb)
      · exact ih ⟨mid, hrest, hmiss⟩

/-- C10: a `NewTrash` or `Putback` event reads every identified app row,
so an event containing any identifier absent from persistence fails as a
whole with `NotFound`, and that failure is what the ack sink receives,
even when other identifiers were valid. -/
theorem trash_read_event_missing_id_fails (st : FolderState) (items : List String)
    (h : ∃ id ∈ items, ∀ a ∈ st.apps, a.id ≠ id) :
    (handle_trash_event st (.newTrash items)).acks = [.error .notFound] ∧
    (handle_trash_event st (.putback items)).acks = [.error .notFound] ∧
    (handle_trash_event st (.newTrash items)).state = st ∧
    (handle_trash_event st (.putback items)).state = st := by
  have hl := trashReadLoop_missing_fails st items h
  simp [handle_trash_event, hl]

/-- C10 witness: an event naming one valid and one absent id acks
`NotFound`. -/
theorem trash_read_event_missing_id_fails_witness :
    (handle_trash_event ⟨[⟨"a1", "W1", "A", ""⟩], []⟩ (.newTrash ["a1", "zz"])).acks
      = [.error .notFound] :=
  (trash_read_event_missing_id_fails ⟨[⟨"a1", "W1", "A", ""⟩], []⟩ ["a1", "zz"]
    ⟨"zz", by simp, by decide⟩).1

/-- When every identifier is readable, the `NewTrash`/`Putback` loop
succeeds and publishes one notification per identifier, for the workspace
of that identifier's row. -/
theorem trashReadLoop_all_found (st : FolderState) (items : List String)
    (h : ∀ id ∈ items, ∃ a ∈ st.apps, a.id = id) :
    trashReadLoop st items =
      (.ok (), items.map
        (fun id => AppController.notify_apps_changed (foundWorkspace st.apps id) st)) := by
  induction items with
  | nil => simp [trashReadLoop]
  | cons id rest ih =>
    obtain ⟨a, ha, hid⟩ := h id (List.mem_cons_self id rest)
    have hsome : (st.apps.find? (fun x => x.id == id)).isSome :=
      List.find?_isSome.2 ⟨a, ha, by simp [hid]⟩
    obtain ⟨b, hf⟩ := Option.isSome_iff_exists.1 hsome
    have hread : Tx.read_app st.apps id = .ok b := by
      simp [Tx.read_app, hf]
    have hws : foundWorkspace st.apps id = b.workspace_id := by
      simp [foundWorkspace, hf]
    have ih' := ih (fun i hi => h i (List.mem_cons_of_mem id hi))
    simp only [trashReadLoop, hread, ih', List.map_cons, hws]

/-- C4 counterexample: a `NewTrash` event naming two apps of the same
workspace publishes two `DidUpdateWorkspaceApps` notifications for that
workspace, not one. -/
theorem newtrash_duplicate_workspace_counterexample :
    (handle_trash_event ⟨[⟨"a1", "W1", "A", ""⟩, ⟨"a2", "W1", "B", ""⟩], []⟩
        (.newTrash ["a1", "a2"])).sent =
      [Notification.updatedWorkspaceApps "W1"
         [⟨"a1", "W1", "A", ""⟩, ⟨"a2", "W1", "B", ""⟩],
       Notification.updatedWorkspaceApps "W1"
         [⟨"a1", "W1", "A", ""⟩, ⟨"a2", "W1", "B", ""⟩]] := by decide

/-- C4 amended: for a `NewTrash` (and likewise `Putback`) event whose
identifier list succeeds its read transaction, one `DidUpdateWorkspaceApps`
notification is published per identifier — keyed by that identifier's
app's workspace — so two identifiers of the same workspace yield two
notifications; only `Delete` events deduplicate by workspace. -/
theorem trash_notification_per_identifier (st : FolderState) (items : List String)
    (h : ∀ id ∈ items, ∃ a ∈ st.apps, a.id = id) :
    (handle_trash_event st (.newTrash items)).sent =
      items.map (fun id => AppController.notify_apps_changed (foundWorkspace st.apps id) st) ∧
    (handle_trash_event st (.putback items)).sent =
      items.map (fun id => AppController.notify_apps_changed (foundWorkspace st.apps id) st) ∧
    (handle_trash_event st (.newTrash items)).acks = [.ok ()] ∧
    (handle_trash_event st (.putback items)).acks = [.ok ()] := by
  have hl := trashReadLoop_all_found st items h
  simp [handle_trash_event, hl]

/-- C4 amended witness: two identifiers of one workspace give the two
per-identifier notifications. -/
theorem trash_notification_per_identifier_witness :
    (handle_trash_event ⟨[⟨"a1", "W1", "A", ""⟩, ⟨"a2", "W1", "B", ""⟩], []⟩
        (.newTrash ["a1", "a2"])).sent =
      ["a1", "a2"].map (fun id => AppController.notify_apps_changed
        (foundWorkspace [⟨"a1", "W1", "A", ""⟩, ⟨"a2", "W1", "B", ""⟩] id)
        ⟨[⟨"a1", "W1", "A", ""⟩, ⟨"a2", "W1", "B", ""⟩], []⟩) :=
  (trash_notification_per_identifier ⟨[⟨"a1", "W1", "A", ""⟩, ⟨"a2", "W1", "B", ""⟩], []⟩
    ["a1", "a2"] (by decide)).1

/-- C5 counterexample: a `NewTrash` event over two identifiers that fails
on the second still publishes the first identifier's
`DidUpdateWorkspaceApps` notification while acking the failure — a failed
event is not notification-free. -/
theorem failed_event_notification_counterexample :
    (handle_trash_event ⟨[⟨"a1", "W1", "A", ""⟩], []⟩ (.newTrash ["a1", "zz"])).acks
        = [.error .notFound] ∧
    (handle_trash_event ⟨[⟨"a1", "W1", "A", ""⟩], []⟩ (.newTrash ["a1", "zz"])).sent
        = [Notification.updatedWorkspaceApps "W1" [⟨"a1", "W1", "A", ""⟩]] := by decide

/-- C5 amended: every received trash event sends exactly one
acknowledgement, a failed transaction leaves the folder state unchanged,
and a failed `Delete` event publishes no notification; a failed
`NewTrash`/`Putback` event keeps the notifications already published for
the identifiers processed before the failure. -/
theorem trash_event_single_ack_failure_spec (st : FolderState) (event : TrashEvent) :
    (handle_trash_event st event).acks.length = 1 ∧
    (∀ e, (handle_trash_event st event).acks = [.error e] →
        (handle_trash_event st event).state = st) ∧
    (∀ items e, event = .delete items →
        (handle_trash_event st event).acks = [.error e] →
        (handle_trash_event st event).sent = []) := by
  cases event with
  | newTrash items =>
    refine ⟨rfl, fun e _ => rfl, ?_⟩
    intro items' e h
    cases h
  | putback items =>
    refine ⟨rfl, fun e _ => rfl, ?_⟩
    intro items' e h
    cases h
  | delete items =>
    cases hd : deleteLoop st.apps [] items with
    | error e =>
      simp [handle_trash_event, hd]
    | ok p =>
      simp only [handle_trash_event, hd]
      refine ⟨rfl, ?_, ?_⟩
      · intro e h
        injection h with h1
        cases h1
      · intro items' e _ h
        injection h with h1
        cases h1

/-- C5 amended witness: a failed `Delete` publishes nothing. -/
theorem trash_event_single_ack_failure_spec_witness :
    (handle_trash_event ⟨[], []⟩ (.delete ["zz"])).sent = [] :=
  (trash_event_single_ack_failure_spec ⟨[], []⟩ (.delete ["zz"])).2.2 ["zz"] .notFound rfl
    (by decide)

/-- C7 counterexample: when the local transaction of `update_app`
succeeds but the token fetch for the detached remote call fails,
`update_app` returns the error even though persistence was committed and
the `DidUpdateApp` notification was published. -/
theorem update_app_error_after_commit_counterexample :
    (AppController.update_app ⟨[⟨"a1", "W1", "A", ""⟩], []⟩ ⟨"a1", some "X", none⟩
        (.error .unauthorized) (.ok ())).result = .error .unauthorized ∧
    (AppController.update_app ⟨[⟨"a1", "W1", "A", ""⟩], []⟩ ⟨"a1", some "X", none⟩
        (.error .unauthorized) (.ok ())).state.apps = [⟨"a1", "W1", "X", ""⟩] ∧
    (AppController.update_app ⟨[⟨"a1", "W1", "A", ""⟩], []⟩ ⟨"a1", some "X", none⟩
        (.error .unauthorized) (.ok ())).sent =
      [Notification.updatedApp "a1" ⟨"a1", "W1", "X", ""⟩] := by decide

/-- C7 amended: user-initiated operations propagate the first error with
the transaction rolled back and no notification sent — for
`create_app_from_params`, `move_app` and `read_local_apps` always, and for
`update_app` whenever the error arises inside the local transaction; an
`update_app` error arising from the detached remote dispatch's token fetch
is returned only after the commit and the `DidUpdateApp` notification. -/
theorem user_operation_error_rollback_spec :
    (∀ sys token cloud e,
        (AppController.create_app_from_params sys token cloud).result = .error e →
        (AppController.create_app_from_params sys token cloud).sys = sys ∧
        (AppController.create_app_from_params sys token cloud).sent = []) ∧
    (∀ st app_id f t e, (AppController.move_app st app_id f t).result = .error e →
        (AppController.move_app st app_id f t).state = st ∧
        (AppController.move_app st app_id f t).sent = []) ∧
    (∀ st ids e, (AppController.read_local_apps st ids).result = .error e →
        (AppController.read_local_apps st ids).state = st ∧
        (AppController.read_local_apps st ids).sent = []) ∧
    (∀ st params token remote e,
        Tx.read_app (Tx.update_app st.apps (AppChangeset.new params))
            (AppChangeset.new params).id = .error e →
        AppController.update_app st params token remote = ⟨.error e, st, [], [], []⟩) := by
  refine ⟨?_, ?_, ?_, ?_⟩
  · intro sys token cloud e h
    cases token with
    | error e' => simp_all [AppController.create_app_from_params, AppController.create_app_on_server]
    | ok tok =>
      cases cloud with
      | error e' => simp_all [AppController.create_app_from_params, AppController.create_app_on_server]
      | ok app =>
        simp [AppController.create_app_from_params, AppController.create_app_on_server,
          AppController.create_app_on_local] at h
  · intro st app_id f t e h
    unfold AppController.move_app at h ⊢
    cases hm : Tx.move_app st.apps app_id f t with
    | error e' => simp [hm]
    | ok apps1 =>
      rw [hm] at h
      cases hr : Tx.read_app apps1 app_id with
      | error e' => simp [hr]
      | ok app => simp [hr] at h
  · intro st ids e h
    unfold AppController.read_local_apps at h ⊢
    cases hl : AppController.readLocalLoop st.apps ids with
    | error e' => simp [hl]
    | ok apps => rw [hl] at h; simp at h
  · intro st params token remote e h
    simp [AppController.update_app, h]

/-- C7 amended witness: a failed move leaves the state unchanged and
sends nothing. -/
theorem user_operation_error_rollback_spec_witness :
    (AppController.move_app ⟨[], []⟩ "a1" 0 0).state = ⟨[], []⟩ ∧
    (AppController.move_app ⟨[], []⟩ "a1" 0 0).sent = [] :=
  user_operation_error_rollback_spec.2.1 ⟨[], []⟩ "a1" 0 0 .notFound (by decide)

/-- C8: in `update_app` the `DidUpdateApp` notification is observable
strictly after the local commit and before the detached remote call
starts; the remote call's outcome does not change the result, state,
notifications or trace, and a remote failure is only logged. -/
theorem update_notification_after_commit_before_remote (st : FolderState)
    (params : UpdateAppParams) (token : Except FlowyError String)
    (remote remote2 : Except FlowyError Unit) :
    ((AppController.update_app st params token remote).trace = [] ∨
     (AppController.update_app st params token remote).trace =
        [.localCommit, .notificationSent] ∨
     (AppController.update_app st params token remote).trace =
        [.localCommit, .notificationSent, .remoteCallStarted]) ∧
    (AppController.UpdateEvent.remoteCallStarted ∈
        (AppController.update_app st params token remote).trace →
      (AppController.update_app st params token remote).trace =
        [.localCommit, .notificationSent, .remoteCallStarted]) ∧
    ((AppController.update_app st params token remote).result =
        (AppController.update_app st params token remote2).result ∧
     (AppController.update_app st params token remote).state =
        (AppController.update_app st params token remote2).state ∧
     (AppController.update_app st params token remote).sent =
        (AppController.update_app st params token remote2).sent ∧
     (AppController.update_app st params token remote).trace =
        (AppController.update_app st params token remote2).trace) ∧
    (∀ e, remote = .error e →
      AppController.UpdateEvent.remoteCallStarted ∈
        (AppController.update_app st params token remote).trace →
      (AppController.update_app st params token remote).logs = [e]) := by
  cases hr : Tx.read_app (Tx.update_app st.apps (AppChangeset.new params))
      (AppChangeset.new params).id with
  | error e =>
    simp [AppController.update_app, hr]
  | ok app =>
    cases token with
    | error e' =>
      simp only [AppController.update_app, hr]
      refine ⟨by simp, ?_, by simp, ?_⟩
      · intro hmem; simp at hmem
      · intro e he hmem; simp at hmem
    | ok tok =>
      simp only [AppController.update_app, hr]
      refine ⟨by simp, by simp, by simp, ?_⟩
      intro e he hmem
      subst he
      rfl

/-- C8 witness: a fully successful update produces the commit-notify-remote
trace. -/
theorem update_notification_after_commit_before_remote_witness :
    (AppController.update_app ⟨[⟨"a1", "W1", "A", ""⟩], []⟩ ⟨"a1", some "X", none⟩
        (.ok "t") (.ok ())).trace =
      [.localCommit, .notificationSent, .remoteCallStarted] :=
  (update_notification_after_commit_before_remote ⟨[⟨"a1", "W1", "A", ""⟩], []⟩
    ⟨"a1", some "X", none⟩ (.ok "t") (.ok ()) (.ok ())).2.1 (by decide)

/-- Deleting one id leaves lookups of any other id unchanged. -/
theorem find?_delete_app_ne (apps : List AppRevision) (x y : String) (hne : y ≠ x) :
    (Tx.delete_app apps x).find? (fun a => a.id == y) =
      apps.find? (fun a => a.id == y) := by
  induction apps with
  | nil => rfl
  | cons a rest ih =>
    unfold Tx.delete_app at ih ⊢
    cases hax : (a.id == x) with
    | true =>
      have hax' : a.id = x := by simpa using hax
      have hay : (a.id == y) = false := by
        cases hcc : (a.id == y) with
        | false => rfl
        | true =>
          have hay' : a.id = y := by simpa using hcc
          have hyx : y = x := by rw [← hay', hax']
          exact absurd hyx hne
      simp [List.filter_cons, hax, List.find?_cons, hay, ih]
    | false =>
      simp only [List.filter_cons, hax, Bool.not_false, if_true]
      cases hay : (a.id == y) with
      | true => simp [List.find?_cons, hay]
      | false => simp [List.find?_cons, hay, ih]

/-- Deleting one id does not change the workspace captured for another. -/
theorem foundWorkspace_delete_app_ne (apps : List AppRevision) (x y : String) (hne : y ≠ x) :
    foundWorkspace (Tx.delete_app apps x) y = foundWorkspace apps y := by
  unfold foundWorkspace
  rw [find?_delete_app_ne apps x y hne]

/-- Membership in the modelled `HashSet::insert`. -/
theorem mem_insertUnique (l : List String) (x y : String) :
    y ∈ insertUnique l x ↔ y ∈ l ∨ y = x := by
  unfold insertUnique
  cases hc : l.contains x with
  | true =>
    have hx : x ∈ l := List.elem_iff.1 hc
    simp only [if_true]
    constructor
    · exact Or.inl
    · rintro (h | rfl)
      · exact h
      · exact hx
  | false => simp

/-- The modelled `HashSet::insert` preserves distinctness. -/
theorem insertUnique_nodup (l : List String) (x : String) (h : l.Nodup) :
    (insertUnique l x).Nodup := by
  unfold insertUnique
  cases hc : l.contains x with
  | true => simpa using h
  | false =>
    rw [if_neg (by simp [hc])]
    refine List.Nodup.append h (List.nodup_singleton x) ?_
    intro a ha hax
    rw [List.mem_singleton] at hax
    subst hax
    have hmem : l.contains a = true := List.elem_iff.2 ha
    rw [hc] at hmem
    cases hmem

/-- Membership after folding identifiers into the `notify_ids` set. -/
theorem mem_foldl_insertUnique (g : String → String) (items : List String) :
    ∀ (acc : List String) (y : String),
      y ∈ items.foldl (fun ws i => insertUnique ws (g i)) acc ↔
        y ∈ acc ∨ ∃ i ∈ items, g i = y := by
  induction items with
  | nil => intro acc y; simp
  | cons i rest ih =>
    intro acc y
    simp only [List.foldl_cons]
    rw [ih]
    rw [mem_insertUnique]
    constructor
    · rintro ((h | rfl) | ⟨j, hj, rfl⟩)
      · exact Or.inl h
      · exact Or.inr ⟨i, List.mem_cons_self i rest, rfl⟩
      · exact Or.inr ⟨j, List.mem_cons_of_mem i hj, rfl⟩
    · rintro (h | ⟨j, hj, rfl⟩)
      · exact Or.inl (Or.inl h)
      · rcases List.mem_cons.1 hj with rfl | hjr
        · exact Or.inl (Or.inr rfl)
        · exact Or.inr ⟨j, hjr, rfl⟩

/-- Folding identifiers into the `notify_ids` set keeps it duplicate-free. -/
theorem foldl_insertUnique_nodup (g : String → String) (items : List String) :
    ∀ (acc : List String), acc.Nodup →
      (items.foldl (fun ws i => insertUnique ws (g i)) acc).Nodup := by
  induction items with
  | nil => intro acc h; simpa using h
  | cons i rest ih =>
    intro acc h
    simp only [List.foldl_cons]
    exact ih _ (insertUnique_nodup _ _ h)

/-- Closed form of the `Delete` loop when the identifiers are distinct and
all present: every identified row is removed and the captured workspaces
are the identifiers' workspaces, first occurrences first. -/
theorem deleteLoop_all_found :
    ∀ (items : List String) (apps : List AppRevision) (acc : List String),
      items.Nodup → (∀ id ∈ items, ∃ a ∈ apps, a.id = id) →
      deleteLoop apps acc items =
        .ok (apps.filter (fun a => !(items.contains a.id)),
             items.foldl (fun ws id => insertUnique ws (foundWorkspace apps id)) acc) := by
  intro items
  induction items with
  | nil =>
    intro apps acc _ _
    simp [deleteLoop]
  | cons id rest ih =>
    intro apps acc hnd hfound
    obtain ⟨a, ha, hid⟩ := hfound id (List.mem_cons_self id rest)
    have hsome : (apps.find? (fun x => x.id == id)).isSome :=
      List.find?_isSome.2 ⟨a, ha, by simp [hid]⟩
    obtain ⟨b, hf⟩ := Option.isSome_iff_exists.1 hsome
    have hread : Tx.read_app apps id = .ok b := by simp [Tx.read_app, hf]
    have hid_not_rest : id ∉ rest := (List.nodup_cons.1 hnd).1
    have hnd' : rest.Nodup := (List.nodup_cons.1 hnd).2
    have hfound' : ∀ i ∈ rest, ∃ c ∈ Tx.delete_app apps id, c.id = i := by
      intro i hi
      obtain ⟨c, hc, hcid⟩ := hfound i (List.mem_cons_of_mem id hi)
      refine ⟨c, ?_, hcid⟩
      unfold Tx.delete_app
      rw [List.mem_filter]
      refine ⟨hc, ?_⟩
      have hne : i ≠ id := fun h => hid_not_rest (h ▸ hi)
      simp [hcid, hne]
    have ihh := ih (Tx.delete_app apps id) (insertUnique acc b.workspace_id) hnd' hfound'
    have hX : (Tx.delete_app apps id).filter (fun a => !(rest.contains a.id)) =
        apps.filter (fun a => !((id :: rest).contains a.id)) := by
      unfold Tx.delete_app
      rw [List.filter_filter]
      apply List.filter_congr
      intro c _
      show (!(rest.contains c.id) && !(c.id == id)) = !((id :: rest).contains c.id)
      show (!(rest.contains c.id) && !(c.id == id)) = !((c.id == id) || rest.contains c.id)
      rw [Bool.not_or, Bool.and_comm]
    have hw : foundWorkspace apps id = b.workspace_id := by
      simp [foundWorkspace, hf]
    have hY : rest.foldl
          (fun ws i => insertUnique ws (foundWorkspace (Tx.delete_app apps id) i))
          (insertUnique acc b.workspace_id) =
        (id :: rest).foldl (fun ws i => insertUnique ws (foundWorkspace apps i)) acc := by
      rw [List.foldl_cons, hw]
      apply List.foldl_ext
      intro ws i hi
      rw [foundWorkspace_delete_app_ne apps id i (fun h => hid_not_rest (h ▸ hi))]
    simp only [deleteLoop, hread]
    rw [ihh, hX, hY]

/-- C6: a `Delete` trash event reads each identified row (capturing its
workspace), deletes it, and after all deletions publishes exactly one
`DidUpdateWorkspaceApps` notification per distinct captured workspace id,
computed on the post-deletion state; if any step fails the whole
transaction aborts, leaving persistence unchanged with no notification and
the failure on the ack sink. -/
theorem delete_event_spec (st : FolderState) (items : List String) :
    (∀ e, deleteLoop st.apps [] items = .error e →
        handle_trash_event st (.delete items) = ⟨st, [], [.error e]⟩) ∧
    (items.Nodup → (∀ id ∈ items, ∃ a ∈ st.apps, a.id = id) →
      ∃ ws : List String,
        ws.Nodup ∧
        (∀ w, w ∈ ws ↔ ∃ id ∈ items, foundWorkspace st.apps id = w) ∧
        handle_trash_event st (.delete items) =
          ⟨⟨st.apps.filter (fun a => !(items.contains a.id)), st.trash⟩,
           ws.map (fun w => AppController.notify_apps_changed w
             ⟨st.apps.filter (fun a => !(items.contains a.id)), st.trash⟩),
           [Except.ok ()]⟩) := by
  constructor
  · intro e h
    simp [handle_trash_event, h]
  · intro hnd hfound
    refine ⟨items.foldl (fun ws id => insertUnique ws (foundWorkspace st.apps id)) [],
      ?_, ?_, ?_⟩
    · exact foldl_insertUnique_nodup _ items [] List.nodup_nil
    · intro w
      rw [mem_foldl_insertUnique]
      simp
    · have hd := deleteLoop_all_found items st.apps [] hnd hfound
      simp only [handle_trash_event, hd]

/-- C6 witness: deleting one app from each of two workspaces removes both
rows and notifies each workspace once. -/
theorem delete_event_spec_witness :
    ∃ ws : List String,
      ws.Nodup ∧
      (∀ w, w ∈ ws ↔ ∃ id ∈ ["a1", "a3"],
        foundWorkspace [⟨"a1", "W1", "A", ""⟩, ⟨"a2", "W1", "B", ""⟩,
          ⟨"a3", "W2", "C", ""⟩] id = w) ∧
      handle_trash_event
          ⟨[⟨"a1", "W1", "A", ""⟩, ⟨"a2", "W1", "B", ""⟩, ⟨"a3", "W2", "C", ""⟩], []⟩
          (.delete ["a1", "a3"]) =
        ⟨⟨[⟨"a1", "W1", "A", ""⟩, ⟨"a2", "W1", "B", ""⟩,
            ⟨"a3", "W2", "C", ""⟩].filter (fun a => !(["a1", "a3"].contains a.id)),
          []⟩,
         ws.map (fun w => AppController.notify_apps_changed w
           ⟨[⟨"a1", "W1", "A", ""⟩, ⟨"a2", "W1", "B", ""⟩,
              ⟨"a3", "W2", "C", ""⟩].filter (fun a => !(["a1", "a3"].contains a.id)),
            []⟩),
         [Except.ok ()]⟩ :=
  (delete_event_spec
    ⟨[⟨"a1", "W1", "A", ""⟩, ⟨"a2", "W1", "B", ""⟩, ⟨"a3", "W2", "C", ""⟩], []⟩
    ["a1", "a3"]).2 (by decide) (by decide)

/-- Inserting an element at a valid position is, up to permutation,
prepending it. -/
theorem insertIdx_perm_cons {α : Type} (x : α) :
    ∀ (l : List α) (n : Nat), n ≤ l.length → (l.insertIdx n x).Perm (x :: l) := by
  intro l
  induction l with
  | nil =>
    intro n hn
    have hn0 : n = 0 := Nat.le_zero.1 hn
    subst hn0
    rw [List.insertIdx_zero]
  | cons a tl ih =>
    intro n hn
    cases n with
    | zero => rw [List.insertIdx_zero]
    | succ m =>
      rw [List.insertIdx_succ_cons]
      have hp := ih m (Nat.le_of_succ_le_succ hn)
      exact (hp.cons a).trans (List.Perm.swap x a tl)

/-- Removing an element and re-inserting it at the same position is the
identity. -/
theorem insertIdx_eraseIdx_self {α : Type} :
    ∀ (l : List α) (n : Nat) (h : n < l.length), (l.eraseIdx n).insertIdx n l[n] = l := by
  intro l
  induction l with
  | nil => intro n h; cases h
  | cons a tl ih =>
    intro n h
    cases n with
    | zero => rfl
    | succ m =>
      have hm : m < tl.length := Nat.lt_of_succ_lt_succ h
      simp only [List.eraseIdx_cons_succ, List.insertIdx_succ_cons, List.getElem_cons_succ]
      rw [ih m hm]

/-- A successful in-range move permutes the list. -/
theorem moveElem_perm (l : List AppRevision) (f t : Nat) (m : List AppRevision)
    (h : Tx.moveElem l f t = some m) : m.Perm l := by
  unfold Tx.moveElem at h
  cases hg : l[f]? with
  | none => rw [hg] at h; cases h
  | some x =>
    rw [hg] at h
    dsimp only at h
    by_cases hlt : t < l.length
    · rw [if_pos hlt] at h
      injection h with hm
      subst hm
      obtain ⟨hf, hx⟩ := List.getElem?_eq_some.1 hg
      have hlen : (l.eraseIdx f).length + 1 = l.length := List.length_eraseIdx_add_one hf
      have hle : t ≤ (l.eraseIdx f).length := by omega
      have h1 : ((l.eraseIdx f).insertIdx t x).Perm (x :: l.eraseIdx f) :=
        insertIdx_perm_cons x (l.eraseIdx f) t hle
      have h2 : (l.eraseIdx f).Perm (l.erase x) := by
        rw [← hx]
        exact (List.erase_getElem hf).symm
      have hmem : x ∈ l := by
        rw [← hx]
        exact List.getElem_mem hf
      have h3 : (x :: l.erase x).Perm l := (List.perm_cons_erase hmem).symm
      exact (h1.trans (h2.cons x)).trans h3
    · rw [if_neg hlt] at h
      cases h

/-- After replacing a workspace's subsequence, that workspace's rows are
exactly the replacement. -/
theorem replaceWs_filter_pos (w : String) :
    ∀ (apps repl : List AppRevision),
      (∀ b ∈ repl, (b.workspace_id == w) = true) →
      repl.length = (apps.filter (fun a => a.workspace_id == w)).length →
      (Tx.replaceWs w repl apps).filter (fun a => a.workspace_id == w) = repl := by
  intro apps
  induction apps with
  | nil =>
    intro repl hall hlen
    simp only [List.filter_nil, List.length_nil] at hlen
    rw [List.length_eq_zero] at hlen
    subst hlen
    rfl
  | cons a rest ih =>
    intro repl hall hlen
    cases haw : (a.workspace_id == w) with
    | true =>
      rw [List.filter_cons, haw] at hlen
      simp only [if_true, List.length_cons] at hlen
      cases repl with
      | nil => simp at hlen
      | cons b bs =>
        have hb : (b.workspace_id == w) = true := hall b (List.mem_cons_self b bs)
        have hbs : ∀ c ∈ bs, (c.workspace_id == w) = true :=
          fun c hc => hall c (List.mem_cons_of_mem b hc)
        have hlen' : bs.length = (rest.filter (fun a => a.workspace_id == w)).length := by
          simpa using hlen
        simp only [Tx.replaceWs, haw, if_true]
        rw [List.filter_cons, hb]
        simp only [if_true]
        rw [ih bs hbs hlen']
    | false =>
      rw [List.filter_cons, haw] at hlen
      simp only [Bool.false_eq_true, if_false] at hlen
      simp only [Tx.replaceWs, haw, Bool.false_eq_true, if_false]
      rw [List.filter_cons, haw]
      simp only [Bool.false_eq_true, if_false]
      exact ih repl hall hlen

/-- Replacing a workspace's subsequence leaves every other row in place. -/
theorem replaceWs_filter_neg (w : String) :
    ∀ (apps repl : List AppRevision),
      (∀ b ∈ repl, (b.workspace_id == w) = true) →
      repl.length = (apps.filter (fun a => a.workspace_id == w)).length →
      (Tx.replaceWs w repl apps).filter (fun a => !(a.workspace_id == w)) =
        apps.filter (fun a => !(a.workspace_id == w)) := by
  intro apps
  induction apps with
  | nil =>
    intro repl hall hlen
    simp only [List.filter_nil, List.length_nil] at hlen
    rw [List.length_eq_zero] at hlen
    subst hlen
    rfl
  | cons a rest ih =>
    intro repl hall hlen
    cases haw : (a.workspace_id == w) with
    | true =>
      rw [List.filter_cons, haw] at hlen
      simp only [if_true, List.length_cons] at hlen
      cases repl with
      | nil => simp at hlen
      | cons b bs =>
        have hb : (b.workspace_id == w) = true := hall b (List.mem_cons_self b bs)
        have hbs : ∀ c ∈ bs, (c.workspace_id == w) = true :=
          fun c hc => hall c (List.mem_cons_of_mem b hc)
        have hlen' : bs.length = (rest.filter (fun a => a.workspace_id == w)).length := by
          simpa using hlen
        simp only [Tx.replaceWs, haw, if_true]
        rw [List.filter_cons, List.filter_cons]
        simp only [hb, haw, Bool.not_true, Bool.false_eq_true, if_false]
        exact ih bs hbs hlen'
    | false =>
      rw [List.filter_cons, haw] at hlen
      simp only [Bool.false_eq_true, if_false] at hlen
      simp only [Tx.replaceWs, haw, Bool.false_eq_true, if_false]
      rw [List.filter_cons, List.filter_cons]
      simp only [haw, Bool.not_false, if_true]
      rw [ih repl hall hlen]

/-- Replacing a workspace's subsequence by a permutation of it permutes
the whole store. -/
theorem replaceWs_perm (w : String) (apps repl : List AppRevision)
    (hall : ∀ b ∈ repl, (b.workspace_id == w) = true)
    (hperm : repl.Perm (apps.filter (fun a => a.workspace_id == w))) :
    (Tx.replaceWs w repl apps).Perm apps := by
  have hlen : repl.length = (apps.filter (fun a => a.workspace_id == w)).length :=
    hperm.length_eq
  have h1 := replaceWs_filter_pos w apps repl hall hlen
  have h2 := replaceWs_filter_neg w apps repl hall hlen
  have hsplit := List.filter_append_perm (fun a => a.workspace_id == w) (Tx.replaceWs w repl apps)
  have hsplit2 := List.filter_append_perm (fun a => a.workspace_id == w) apps
  have step1 : (Tx.replaceWs w repl apps).Perm
      (repl ++ apps.filter (fun a => !(a.workspace_id == w))) := by
    have hs := hsplit.symm
    rw [h1, h2] at hs
    exact hs
  exact step1.trans ((hperm.append_right _).trans hsplit2)

/-- Writing a workspace's own subsequence back is the identity. -/
theorem replaceWs_self (w : String) :
    ∀ apps : List AppRevision,
      Tx.replaceWs w (apps.filter (fun a => a.workspace_id == w)) apps = apps := by
  intro apps
  induction apps with
  | nil => rfl
  | cons a rest ih =>
    cases haw : (a.workspace_id == w) with
    | true =>
      rw [List.filter_cons]
      simp only [haw, if_true, Tx.replaceWs]
      rw [ih]
    | false =>
      rw [List.filter_cons]
      simp only [haw, Bool.false_eq_true, if_false, Tx.replaceWs]
      rw [ih]

/-- An out-of-range move position is rejected. -/
theorem moveElem_none (l : List AppRevision) (f t : Nat)
    (h : ¬(f < l.length ∧ t < l.length)) : Tx.moveElem l f t = none := by
  unfold Tx.moveElem
  cases hg : l[f]? with
  | none => rfl
  | some x =>
    obtain ⟨hf, -⟩ := List.getElem?_eq_some.1 hg
    have hnt : ¬ t < l.length := fun ht => h ⟨hf, ht⟩
    dsimp only
    rw [if_neg hnt]

/-- C9: `move_app` aborts with no state change and no notification on any
failure — in particular an out-of-range position is an error — and on
success (the no-op `from = to` case included, which leaves the store
literally unchanged) it returns ok, emits exactly one
`DidUpdateWorkspaceApps` notification for the moved app's workspace, and
preserves the multiset of app ids of that workspace. -/
theorem move_app_spec (st : FolderState) (app_id : String) (f t : Nat) :
    (∀ e, (AppController.move_app st app_id f t).result = .error e →
        (AppController.move_app st app_id f t).state = st ∧
        (AppController.move_app st app_id f t).sent = []) ∧
    (∀ app, st.apps.find? (fun a => a.id == app_id) = some app →
      ¬(f < (Tx.read_workspace_apps st.apps app.workspace_id).length ∧
        t < (Tx.read_workspace_apps st.apps app.workspace_id).length) →
      (AppController.move_app st app_id f t).result = .error .internal) ∧
    (∀ app, st.apps.find? (fun a => a.id == app_id) = some app →
      f < (Tx.read_workspace_apps st.apps app.workspace_id).length →
      t < (Tx.read_workspace_apps st.apps app.workspace_id).length →
      (st.apps.map (fun a => a.id)).Nodup →
      (AppController.move_app st app_id f t).result = .ok () ∧
      (∃ payload, (AppController.move_app st app_id f t).sent =
        [Notification.updatedWorkspaceApps app.workspace_id payload]) ∧
      (((Tx.read_workspace_apps (AppController.move_app st app_id f t).state.apps
          app.workspace_id).map (fun a => a.id) : Multiset String) =
        ((Tx.read_workspace_apps st.apps app.workspace_id).map
          (fun a => a.id) : Multiset String)) ∧
      (AppController.move_app st app_id f t).state.trash = st.trash ∧
      (f = t → (AppController.move_app st app_id f t).state = st)) := by
  refine ⟨?_, ?_, ?_⟩
  · intro e h
    unfold AppController.move_app at h ⊢
    cases hm : Tx.move_app st.apps app_id f t with
    | error e' => simp [hm]
    | ok apps1 =>
      rw [hm] at h
      cases hr : Tx.read_app apps1 app_id with
      | error e' => simp [hr]
      | ok app => simp [hr] at h
  · intro app hfind hrange
    have hnone := moveElem_none (Tx.read_workspace_apps st.apps app.workspace_id) f t hrange
    simp [AppController.move_app, Tx.move_app, hfind, hnone]
  · intro app hfind hf ht hnodup
    have happmem : app ∈ st.apps := List.mem_of_find?_eq_some hfind
    have happid : app.id = app_id := by simpa using List.find?_some hfind
    have hgf : (Tx.read_workspace_apps st.apps app.workspace_id)[f]? =
        some ((Tx.read_workspace_apps st.apps app.workspace_id)[f]) :=
      List.getElem?_eq_getElem hf
    have hme : Tx.moveElem (Tx.read_workspace_apps st.apps app.workspace_id) f t =
        some (((Tx.read_workspace_apps st.apps app.workspace_id).eraseIdx f).insertIdx t
          ((Tx.read_workspace_apps st.apps app.workspace_id)[f])) := by
      unfold Tx.moveElem
      rw [hgf]
      dsimp only
      rw [if_pos ht]
    have hmp : (((Tx.read_workspace_apps st.apps app.workspace_id).eraseIdx f).insertIdx t
          ((Tx.read_workspace_apps st.apps app.workspace_id)[f])).Perm
        (Tx.read_workspace_apps st.apps app.workspace_id) :=
      moveElem_perm _ f t _ hme
    have hall : ∀ b ∈ ((Tx.read_workspace_apps st.apps app.workspace_id).eraseIdx f).insertIdx t
          ((Tx.read_workspace_apps st.apps app.workspace_id)[f]),
        (b.workspace_id == app.workspace_id) = true := by
      intro b hb
      have hbws : b ∈ Tx.read_workspace_apps st.apps app.workspace_id := hmp.mem_iff.1 hb
      unfold Tx.read_workspace_apps at hbws
      exact (List.mem_filter.1 hbws).2
    have hmove : Tx.move_app st.apps app_id f t =
        .ok (Tx.replaceWs app.workspace_id
          (((Tx.read_workspace_apps st.apps app.workspace_id).eraseIdx f).insertIdx t
            ((Tx.read_workspace_apps st.apps app.workspace_id)[f])) st.apps) := by
      simp only [Tx.move_app, hfind, hme]
    have hperm_new : (Tx.replaceWs app.workspace_id
          (((Tx.read_workspace_apps st.apps app.workspace_id).eraseIdx f).insertIdx t
            ((Tx.read_workspace_apps st.apps app.workspace_id)[f])) st.apps).Perm st.apps :=
      replaceWs_perm _ _ _ hall hmp
    have hfilter_new := replaceWs_filter_pos app.workspace_id st.apps
      (((Tx.read_workspace_apps st.apps app.workspace_id).eraseIdx f).insertIdx t
        ((Tx.read_workspace_apps st.apps app.workspace_id)[f])) hall hmp.length_eq
    have happ_ws : app ∈ Tx.read_workspace_apps st.apps app.workspace_id := by
      unfold Tx.read_workspace_apps
      exact List.mem_filter.2 ⟨happmem, by simp⟩
    have happ_moved : app ∈ ((Tx.read_workspace_apps st.apps app.workspace_id).eraseIdx f).insertIdx t
        ((Tx.read_workspace_apps st.apps app.workspace_id)[f]) := hmp.mem_iff.2 happ_ws
    have happ_new : app ∈ Tx.replaceWs app.workspace_id
        (((Tx.read_workspace_apps st.apps app.workspace_id).eraseIdx f).insertIdx t
          ((Tx.read_workspace_apps st.apps app.workspace_id)[f])) st.apps := by
      have hm2 := hfilter_new ▸ happ_moved
      exact (List.mem_filter.1 hm2).1
    have hsome2 : ((Tx.replaceWs app.workspace_id
        (((Tx.read_workspace_apps st.apps app.workspace_id).eraseIdx f).insertIdx t
          ((Tx.read_workspace_apps st.apps app.workspace_id)[f])) st.apps).find?
            (fun a => a.id == app_id)).isSome :=
      List.find?_isSome.2 ⟨app, happ_new, by simp [happid]⟩
    obtain ⟨b, hb⟩ := Option.isSome_iff_exists.1 hsome2
    have hbmem_new : b ∈ Tx.replaceWs app.workspace_id
        (((Tx.read_workspace_apps st.apps app.workspace_id).eraseIdx f).insertIdx t
          ((Tx.read_workspace_apps st.apps app.workspace_id)[f])) st.apps :=
      List.mem_of_find?_eq_some hb
    have hbid : b.id = app_id := by simpa using List.find?_some hb
    have hbmem : b ∈ st.apps := hperm_new.mem_iff.1 hbmem_new
    have hba : b = app :=
      List.inj_on_of_nodup_map hnodup hbmem happmem (by rw [hbid, happid])
    have hread2 : Tx.read_app (Tx.replaceWs app.workspace_id
        (((Tx.read_workspace_apps st.apps app.workspace_id).eraseIdx f).insertIdx t
          ((Tx.read_workspace_apps st.apps app.workspace_id)[f])) st.apps) app_id = .ok b := by
      simp [Tx.read_app, hb]
    have hout : AppController.move_app st app_id f t =
        ⟨.ok (),
         ⟨Tx.replaceWs app.workspace_id
            (((Tx.read_workspace_apps st.apps app.workspace_id).eraseIdx f).insertIdx t
              ((Tx.read_workspace_apps st.apps app.workspace_id)[f])) st.apps, st.trash⟩,
         [AppController.notify_apps_changed b.workspace_id
            ⟨Tx.replaceWs app.workspace_id
              (((Tx.read_workspace_apps st.apps app.workspace_id).eraseIdx f).insertIdx t
                ((Tx.read_workspace_apps st.apps app.workspace_id)[f])) st.apps, st.trash⟩]⟩ := by
      simp only [AppController.move_app, hmove, hread2]
    refine ⟨by rw [hout], ⟨_, by rw [hout, hba]; rfl⟩, ?_, by rw [hout], ?_⟩
    · rw [hout]
      show ((Tx.read_workspace_apps (Tx.replaceWs app.workspace_id
          (((Tx.read_workspace_apps st.apps app.workspace_id).eraseIdx f).insertIdx t
            ((Tx.read_workspace_apps st.apps app.workspace_id)[f])) st.apps)
          app.workspace_id).map (fun a => a.id) : Multiset String) = _
      have hq : Tx.read_workspace_apps (Tx.replaceWs app.workspace_id
          (((Tx.read_workspace_apps st.apps app.workspace_id).eraseIdx f).insertIdx t
            ((Tx.read_workspace_apps st.apps app.workspace_id)[f])) st.apps)
          app.workspace_id =
          ((Tx.read_workspace_apps st.apps app.workspace_id).eraseIdx f).insertIdx t
            ((Tx.read_workspace_apps st.apps app.workspace_id)[f]) := hfilter_new
      rw [hq]
      exact Multiset.coe_eq_coe.2 (hmp.map (fun a => a.id))
    · intro hft
      subst hft
      have hmoved_eq : ((Tx.read_workspace_apps st.apps app.workspace_id).eraseIdx f).insertIdx f
          ((Tx.read_workspace_apps st.apps app.workspace_id)[f]) =
          Tx.read_workspace_apps st.apps app.workspace_id :=
        insertIdx_eraseIdx_self _ f hf
      rw [hout]
      show FolderState.mk (Tx.replaceWs app.workspace_id
          (((Tx.read_workspace_apps st.apps app.workspace_id).eraseIdx f).insertIdx f
            ((Tx.read_workspace_apps st.apps app.workspace_id)[f])) st.apps) st.trash = st
      rw [hmoved_eq]
      show FolderState.mk (Tx.replaceWs app.workspace_id
          (st.apps.filter (fun a => a.workspace_id == app.workspace_id)) st.apps) st.trash = st
      rw [replaceWs_self]

/-- C9 witness: moving the first of two same-workspace apps to position 1
succeeds, notifies that workspace once, and preserves the id multiset. -/
theorem move_app_spec_witness :
    (AppController.move_app ⟨[⟨"a1", "W1", "A", ""⟩, ⟨"a2", "W1", "B", ""⟩], []⟩
        "a1" 0 1).result = .ok () ∧
    (∃ payload, (AppController.move_app ⟨[⟨"a1", "W1", "A", ""⟩, ⟨"a2", "W1", "B", ""⟩], []⟩
        "a1" 0 1).sent = [Notification.updatedWorkspaceApps "W1" payload]) ∧
    (((Tx.read_workspace_apps (AppController.move_app
          ⟨[⟨"a1", "W1", "A", ""⟩, ⟨"a2", "W1", "B", ""⟩], []⟩ "a1" 0 1).state.apps
        "W1").map (fun a => a.id) : Multiset String) =
      ((Tx.read_workspace_apps [⟨"a1", "W1", "A", ""⟩, ⟨"a2", "W1", "B", ""⟩]
        "W1").map (fun a => a.id) : Multiset String)) ∧
    (AppController.move_app ⟨[⟨"a1", "W1", "A", ""⟩, ⟨"a2", "W1", "B", ""⟩], []⟩
        "a1" 0 1).state.trash = [] ∧
    ((0 : Nat) = 1 → (AppController.move_app
        ⟨[⟨"a1", "W1", "A", ""⟩, ⟨"a2", "W1", "B", ""⟩], []⟩ "a1" 0 1).state =
      ⟨[⟨"a1", "W1", "A", ""⟩, ⟨"a2", "W1", "B", ""⟩], []⟩) :=
  (move_app_spec ⟨[⟨"a1", "W1", "A", ""⟩, ⟨"a2", "W1", "B", ""⟩], []⟩ "a1" 0 1).2.2
    ⟨"a1", "W1", "A", ""⟩ (by decide) (by decide) (by decide) (by decide)
